import Mathlib

/-
  Verification of the Helix-2 stream cipher core (src/src/helix2.c) against its
  natural-language specification.  Machine words are modelled as natural numbers
  kept below 2^32 by explicit reduction; byte lists model the C byte arrays.
-/

namespace Helix2

/- 32-bit rotate left, from _rotl32: (x << n) | (x >> (32 - n)) on uint32_t. -/
def rotl32 (x n : Nat) : Nat :=
  ((x <<< n) % 2 ^ 32) ||| (x >>> (32 - n))

/- Pack 4 bytes little-endian into a 32-bit word, from _pack4. -/
def pack4 (a : List Nat) (i : Nat) : Nat :=
  a.getD i 0 ||| (a.getD (i + 1) 0 <<< 8) |||
    (a.getD (i + 2) 0 <<< 16) ||| (a.getD (i + 3) 0 <<< 24)

/- Read a 32-bit word of the state, out-of-range reads defaulting to 0. -/
def gw (s : List Nat) (i : Nat) : Nat := s.getD i 0

/- The core ARX shuffle, from _helix2_shuffle: 8 in-place sub-steps on the
   four selected word positions, all arithmetic modulo 2^32. -/
def _helix2_shuffle (s : List Nat) (a b c d : Nat) : List Nat :=
  let s := s.set c ((gw s c + rotl32 (((gw s a ^^^ gw s b) + gw s d) % 2 ^ 32) 9) % 2 ^ 32)
  let s := s.set d (gw s d ^^^ rotl32 (((gw s b + gw s c) % 2 ^ 32) ^^^ gw s a) 13)
  let s := s.set a ((gw s a + rotl32 (((gw s c ^^^ gw s d) + gw s b) % 2 ^ 32) 18) % 2 ^ 32)
  let s := s.set b (gw s b ^^^ rotl32 (((gw s d + gw s a) % 2 ^ 32) ^^^ gw s c) 22)
  let s := s.set c (gw s c ^^^ rotl32 ((gw s a + gw s b) % 2 ^ 32) 7)
  let s := s.set d ((gw s d + rotl32 (gw s b ^^^ gw s c) 21) % 2 ^ 32)
  let s := s.set a (gw s a ^^^ rotl32 ((gw s c + gw s d) % 2 ^ 32) 11)
  s.set b ((gw s b + rotl32 (gw s d ^^^ gw s a) 16) % 2 ^ 32)

/- Overwrite state words 10 and 11 with the block-index words, from
   _helix2_initialize_keystream lines 183-184. -/
def seed_with_index (nonce st : List Nat) (idx : Nat) : List Nat :=
  (st.set 10 (idx % 2 ^ 32)).set 11 (pack4 nonce 0 ^^^ ((idx >>> 32) % 2 ^ 32))

/- Word-wise state addition modulo 2^32, from the two 16-word addition blocks. -/
def add_words (w st : List Nat) : List Nat :=
  List.zipWith (fun x y => (x + y) % 2 ^ 32) w st

/- The mixing rounds of _helix2_initialize_keystream on a seeded state:
   round 1 (rows, columns, diagonals), state addition, round 2 (identical
   sequence), state addition. -/
def block_core (s : List Nat) : List Nat :=
  let w := s
  let w := _helix2_shuffle w 0 1 2 3
  let w := _helix2_shuffle w 4 5 6 7
  let w := _helix2_shuffle w 8 9 10 11
  let w := _helix2_shuffle w 12 13 14 15
  let w := _helix2_shuffle w 0 4 8 12
  let w := _helix2_shuffle w 1 5 9 13
  let w := _helix2_shuffle w 2 6 10 14
  let w := _helix2_shuffle w 3 7 11 15
  let w := _helix2_shuffle w 0 5 10 15
  let w := _helix2_shuffle w 1 6 11 12
  let w := _helix2_shuffle w 2 7 8 13
  let w := _helix2_shuffle w 3 4 9 14
  let w := add_words w s
  let w := _helix2_shuffle w 0 1 2 3
  let w := _helix2_shuffle w 4 5 6 7
  let w := _helix2_shuffle w 8 9 10 11
  let w := _helix2_shuffle w 12 13 14 15
  let w := _helix2_shuffle w 0 4 8 12
  let w := _helix2_shuffle w 1 5 9 13
  let w := _helix2_shuffle w 2 6 10 14
  let w := _helix2_shuffle w 3 7 11 15
  let w := _helix2_shuffle w 0 5 10 15
  let w := _helix2_shuffle w 1 6 11 12
  let w := _helix2_shuffle w 2 7 8 13
  let w := _helix2_shuffle w 3 4 9 14
  add_words w s

/- The keystream block of a seed state at a block index (16 words). -/
def block_words (nonce st : List Nat) (idx : Nat) : List Nat :=
  block_core (seed_with_index nonce st idx)

/- The cipher context, from helix2_context_t with the nested
   helix2_internal_keystream_t flattened into it. -/
structure helix2_context_t where
  nonce : List Nat
  key : List Nat
  stream : List Nat
  state : List Nat
  current_block_index : Nat
  last_block_index : Nat
  deriving DecidableEq

/- Build the keystream for the current block index, from
   _helix2_initialize_keystream: sets state words 10/11, recomputes the
   stream, records the last generated index. -/
def _helix2_initialize_keystream (ctx : helix2_context_t) : helix2_context_t :=
  { ctx with
    state := seed_with_index ctx.nonce ctx.state ctx.current_block_index
    stream := block_words ctx.nonce ctx.state ctx.current_block_index
    last_block_index := ctx.current_block_index }

/- From helix2_buffer_set_next_block: store the index and regenerate. -/
def helix2_buffer_set_next_block (ctx : helix2_context_t) (block_index : Nat) :
    helix2_context_t :=
  _helix2_initialize_keystream { ctx with current_block_index := block_index }

/- From helix2_buffer_next_block; the uint64 increment wraps at 2^64. -/
def helix2_buffer_next_block (ctx : helix2_context_t) : helix2_context_t :=
  helix2_buffer_set_next_block ctx ((ctx.current_block_index + 1) % 2 ^ 64)

/- The bytes of the magic constant string of helix2_initialize_context. -/
def magic_bytes : List Nat := [0x73, 0x6F, 0x21, 0x4D, 0x34, 0x67, 0x31, 0x63]

/- The 16-word seed state built by helix2_initialize_context lines 65-80. -/
def init_state (key nonce : List Nat) : List Nat :=
  [pack4 magic_bytes 0, pack4 magic_bytes 4,
   pack4 key 0, pack4 key 4, pack4 key 8, pack4 key 12,
   pack4 key 16, pack4 key 20, pack4 key 24, pack4 key 28,
   0,
   pack4 nonce 0, pack4 nonce 4, pack4 nonce 8, pack4 nonce 12, pack4 nonce 16]

/- From helix2_initialize_context: zeroed context, seed state, then
   helix2_buffer_set_next_block at block 0. -/
def helix2_initialize_context (key nonce : List Nat) : helix2_context_t :=
  helix2_buffer_set_next_block
    { nonce := nonce, key := key, stream := List.replicate 16 0,
      state := init_state key nonce,
      current_block_index := 0, last_block_index := 0 } 0

/- Byte i of the 64-byte little-endian serialization of the 16 stream words,
   from the (uint8_t *) reinterpretation of the stream array. -/
def stream_byte (ws : List Nat) (i : Nat) : Nat :=
  (ws.getD (i / 4) 0 >>> (i % 4 * 8)) % 2 ^ 8

/- The whole 64-byte serialization of a 16-word block. -/
def le_bytes (ws : List Nat) : List Nat :=
  (List.range 64).map fun i => stream_byte ws i

/- From helix2_byte: set the current block index, regenerate if the cached
   index differs, XOR the byte with the in-block keystream byte. -/
def helix2_byte (ctx : helix2_context_t) (offset b : Nat) :
    helix2_context_t × Nat :=
  let ctx1 : helix2_context_t := { ctx with current_block_index := offset / 64 }
  let ctx2 := if ctx1.last_block_index ≠ ctx1.current_block_index
              then helix2_buffer_set_next_block ctx1 ctx1.current_block_index else ctx1
  (ctx2, b ^^^ stream_byte ctx2.stream (offset % 64))

/- The loop of helix2_buffer: on a block crossing advance the (wrapping)
   block counter and regenerate, then XOR the byte at the running in-block
   offset. -/
def helix2_buffer_loop (ctx : helix2_context_t) (buffer : List Nat)
    (current_block block_offset : Nat) : helix2_context_t × List Nat :=
  match buffer with
  | [] => (ctx, [])
  | b :: rest =>
    if block_offset ≥ 64 then
      let cb := (current_block + 1) % 2 ^ 64
      let ctx1 := helix2_buffer_set_next_block ctx cb
      let r := helix2_buffer_loop ctx1 rest cb 1
      (r.1, (b ^^^ stream_byte ctx1.stream 0) :: r.2)
    else
      let r := helix2_buffer_loop ctx rest current_block (block_offset + 1)
      (r.1, (b ^^^ stream_byte ctx.stream block_offset) :: r.2)

/- From helix2_buffer: compute the starting block and in-block offset,
   regenerate if the cached index differs, then run the loop. -/
def helix2_buffer (ctx : helix2_context_t) (buffer : List Nat)
    (start_offset : Nat) : helix2_context_t × List Nat :=
  let current_block := start_offset / 64
  let block_offset := start_offset % 64
  let ctx1 := if ctx.last_block_index ≠ current_block
              then helix2_buffer_set_next_block ctx current_block else ctx
  helix2_buffer_loop ctx1 buffer current_block block_offset

/-
  The older variant of the implementation kept in the repository (the unnamed
  source file with the non-caching helix2_buffer): same shuffle and state
  layout, but its context has no cache fields and its keystream rounds are
  row/diagonal then column/mirrored-diagonal.
-/

/- The context of the older header: nonce, key, stream, state only. -/
structure helix2_context_v1_t where
  nonce : List Nat
  key : List Nat
  stream : List Nat
  state : List Nat
  deriving DecidableEq

/- The mixing rounds of the older _helix2_initialize_keystream: rows and
   diagonals, state addition, columns and mirrored diagonals, state addition. -/
def block_core_v1 (s : List Nat) : List Nat :=
  let w := s
  let w := _helix2_shuffle w 0 1 2 3
  let w := _helix2_shuffle w 4 5 6 7
  let w := _helix2_shuffle w 8 9 10 11
  let w := _helix2_shuffle w 12 13 14 15
  let w := _helix2_shuffle w 0 5 10 15
  let w := _helix2_shuffle w 1 6 11 12
  let w := _helix2_shuffle w 2 7 8 13
  let w := _helix2_shuffle w 3 4 9 14
  let w := add_words w s
  let w := _helix2_shuffle w 0 4 8 12
  let w := _helix2_shuffle w 1 5 9 13
  let w := _helix2_shuffle w 2 6 10 14
  let w := _helix2_shuffle w 3 7 11 15
  let w := _helix2_shuffle w 3 6 9 12
  let w := _helix2_shuffle w 2 5 8 15
  let w := _helix2_shuffle w 1 4 11 14
  let w := _helix2_shuffle w 0 7 10 13
  add_words w s

/- Keystream block of the older variant. -/
def block_words_v1 (nonce st : List Nat) (idx : Nat) : List Nat :=
  block_core_v1 (seed_with_index nonce st idx)

/- The older _helix2_initialize_keystream, taking the block index as an
   argument. -/
def _helix2_initialize_keystream_v1 (ctx : helix2_context_v1_t) (block_index : Nat) :
    helix2_context_v1_t :=
  { ctx with
    state := seed_with_index ctx.nonce ctx.state block_index
    stream := block_words_v1 ctx.nonce ctx.state block_index }

/- The older helix2_initialize_context: seed state only, no eager block. -/
def helix2_initialize_context_v1 (key nonce : List Nat) : helix2_context_v1_t :=
  { nonce := nonce, key := key, stream := List.replicate 16 0,
    state := init_state key nonce }

/- The loop of the older helix2_buffer (identical control flow to the
   caching one, with unconditional regeneration at each crossing). -/
def helix2_buffer_loop_v1 (ctx : helix2_context_v1_t) (buffer : List Nat)
    (current_block block_offset : Nat) : helix2_context_v1_t × List Nat :=
  match buffer with
  | [] => (ctx, [])
  | b :: rest =>
    if block_offset ≥ 64 then
      let cb := (current_block + 1) % 2 ^ 64
      let ctx1 := _helix2_initialize_keystream_v1 ctx cb
      let r := helix2_buffer_loop_v1 ctx1 rest cb 1
      (r.1, (b ^^^ stream_byte ctx1.stream 0) :: r.2)
    else
      let r := helix2_buffer_loop_v1 ctx rest current_block (block_offset + 1)
      (r.1, (b ^^^ stream_byte ctx.stream block_offset) :: r.2)

/- The older helix2_buffer: regenerates the starting block unconditionally,
   then runs the loop. -/
def helix2_buffer_v1 (ctx : helix2_context_v1_t) (buffer : List Nat)
    (start_offset : Nat) : helix2_context_v1_t × List Nat :=
  let current_block := start_offset / 64
  let block_offset := start_offset % 64
  let ctx1 := _helix2_initialize_keystream_v1 ctx current_block
  helix2_buffer_loop_v1 ctx1 buffer current_block block_offset

/-- Modelled from the spec: the non-caching derivation of the range transform
(design note on the two divergent generation paths) — the control flow of the
older helix2_buffer (regenerate unconditionally at entry and at each block
crossing) applied to the canonical keystream generation of src/src/helix2.c,
which the spec designates as the canonical algorithm. -/
def helix2_buffer_nocache (ctx : helix2_context_t) (buffer : List Nat)
    (start_offset : Nat) : helix2_context_t × List Nat :=
  let current_block := start_offset / 64
  let block_offset := start_offset % 64
  let ctx1 := helix2_buffer_set_next_block ctx current_block
  helix2_buffer_loop ctx1 buffer current_block block_offset

/- Sequential single-byte ciphering: n helix2_byte calls at consecutive
   offsets (uint64 offsets, hence reduced modulo 2^64). -/
def seq_cipher (ctx : helix2_context_t) (start : Nat) (buffer : List Nat) :
    helix2_context_t × List Nat :=
  match buffer with
  | [] => (ctx, [])
  | b :: rest =>
    let r1 := helix2_byte ctx (start % 2 ^ 64) b
    let r2 := seq_cipher r1.1 (start + 1) rest
    (r2.1, r1.2 :: r2.2)

/- Pure description of the bytes produced by the buffer loop from block
   counter cb and in-block offset bo. -/
def pure_stream (nonce st : List Nat) (cb bo : Nat) (buffer : List Nat) :
    List Nat :=
  match buffer with
  | [] => []
  | b :: rest =>
    if bo ≥ 64 then
      (b ^^^ stream_byte (block_words nonce st ((cb + 1) % 2 ^ 64)) 0) ::
        pure_stream nonce st ((cb + 1) % 2 ^ 64) 1 rest
    else
      (b ^^^ stream_byte (block_words nonce st cb) bo) ::
        pure_stream nonce st cb (bo + 1) rest

/- Pure description of the bytes produced by sequential helix2_byte calls
   starting at a given offset. -/
def pure_seq (nonce st : List Nat) (start : Nat) (buffer : List Nat) :
    List Nat :=
  match buffer with
  | [] => []
  | b :: rest =>
    (b ^^^ stream_byte (block_words nonce st (start % 2 ^ 64 / 64))
        (start % 2 ^ 64 % 64)) :: pure_seq nonce st (start + 1) rest

/- The cache-coherence invariant: the two index fields agree, the state's
   block-index words match the current index, and the cached stream is the
   keystream block of the current index. -/
def Inv (ctx : helix2_context_t) : Prop :=
  ctx.last_block_index = ctx.current_block_index ∧
  ctx.state = seed_with_index ctx.nonce ctx.state ctx.current_block_index ∧
  ctx.stream = block_words ctx.nonce ctx.state ctx.current_block_index

instance decidableInv (ctx : helix2_context_t) : Decidable (Inv ctx) := by
  unfold Inv; infer_instance

/- The public operations of the cipher, as data for quantifying over call
   histories. -/
inductive Helix2Op where
  | byteOp (offset b : Nat)
  | bufferOp (buffer : List Nat) (start_offset : Nat)
  | setBlockOp (idx : Nat)
  | nextBlockOp

/- Apply one public operation to a context, keeping the context only. -/
def apply_op (ctx : helix2_context_t) : Helix2Op → helix2_context_t
  | .byteOp off b => (helix2_byte ctx off b).1
  | .bufferOp buf s => (helix2_buffer ctx buf s).1
  | .setBlockOp i => helix2_buffer_set_next_block ctx i
  | .nextBlockOp => helix2_buffer_next_block ctx

/- Apply a call history. -/
def apply_ops (ctx : helix2_context_t) (ops : List Helix2Op) : helix2_context_t :=
  ops.foldl apply_op ctx

/-
  Spec-side description of the block generation (claim C7): the mix function
  written as the spec's eight ARX formulas on four scalar words, applied to
  row, column and diagonal groups, identical sequence in both rounds.
-/

/- The spec's mix: eight ARX sub-steps on four words, modulo 2^32. -/
def mix (a b c d : Nat) : Nat × Nat × Nat × Nat :=
  let c := (c + rotl32 (((a ^^^ b) + d) % 2 ^ 32) 9) % 2 ^ 32
  let d := d ^^^ rotl32 (((b + c) % 2 ^ 32) ^^^ a) 13
  let a := (a + rotl32 (((c ^^^ d) + b) % 2 ^ 32) 18) % 2 ^ 32
  let b := b ^^^ rotl32 (((d + a) % 2 ^ 32) ^^^ c) 22
  let c := c ^^^ rotl32 ((a + b) % 2 ^ 32) 7
  let d := (d + rotl32 (b ^^^ c) 21) % 2 ^ 32
  let a := a ^^^ rotl32 ((c + d) % 2 ^ 32) 11
  let b := (b + rotl32 (d ^^^ a) 16) % 2 ^ 32
  (a, b, c, d)

/- Apply the spec's mix to four selected word positions of the state. -/
def mix_at (w : List Nat) (a b c d : Nat) : List Nat :=
  let q := mix (gw w a) (gw w b) (gw w c) (gw w d)
  (((w.set a q.1).set b q.2.1).set c q.2.2.1).set d q.2.2.2

/- One round pass per the spec: mix the four row groups, then the four
   column groups, then the four diagonal groups. -/
def spec_round_pass (w : List Nat) : List Nat :=
  let w := mix_at w 0 1 2 3
  let w := mix_at w 4 5 6 7
  let w := mix_at w 8 9 10 11
  let w := mix_at w 12 13 14 15
  let w := mix_at w 0 4 8 12
  let w := mix_at w 1 5 9 13
  let w := mix_at w 2 6 10 14
  let w := mix_at w 3 7 11 15
  let w := mix_at w 0 5 10 15
  let w := mix_at w 1 6 11 12
  let w := mix_at w 2 7 8 13
  mix_at w 3 4 9 14

/- Spec-side block core: round 1, state addition, round 2 (the identical
   sequence, not a mirrored variant), state addition. -/
def spec_block_core (s : List Nat) : List Nat :=
  add_words (spec_round_pass (add_words (spec_round_pass s) s)) s

/- Spec-side generate_block: seed the working copy's words 10/11 from the
   block index, run the two rounds with intermediate additions, serialize
   the 16 words low-order-byte-first. -/
def spec_generate_block (nonce st : List Nat) (idx : Nat) : List Nat :=
  le_bytes (spec_block_core (seed_with_index nonce st idx))

/- The implementation's 12-shuffle round sequence, for relating block_core
   to the spec-side rounds. -/
def round_shuffles (w : List Nat) : List Nat :=
  let w := _helix2_shuffle w 0 1 2 3
  let w := _helix2_shuffle w 4 5 6 7
  let w := _helix2_shuffle w 8 9 10 11
  let w := _helix2_shuffle w 12 13 14 15
  let w := _helix2_shuffle w 0 4 8 12
  let w := _helix2_shuffle w 1 5 9 13
  let w := _helix2_shuffle w 2 6 10 14
  let w := _helix2_shuffle w 3 7 11 15
  let w := _helix2_shuffle w 0 5 10 15
  let w := _helix2_shuffle w 1 6 11 12
  let w := _helix2_shuffle w 2 7 8 13
  _helix2_shuffle w 3 4 9 14

/- Concrete test-vector inputs. -/
def zero_key : List Nat := List.replicate 32 0

def zero_nonce : List Nat := List.replicate 20 0

def last_byte_one_key : List Nat := List.replicate 31 0 ++ [1]

/- A context whose index fields claim block 0 but whose cached stream is not
   keystream block 0 (the all-zero stream). -/
def stale_ctx : helix2_context_t :=
  { nonce := zero_nonce, key := zero_key, stream := List.replicate 16 0,
    state := init_state zero_key zero_nonce,
    current_block_index := 0, last_block_index := 0 }

/- The list of rotation amounts used by _helix2_shuffle, in order. -/
def rotation_amounts : List Nat := [9, 13, 18, 22, 7, 21, 11, 16]

/-
  Helper lemmas on reads and writes of the word array.
-/

theorem gw_set_self (s : List Nat) (i v : Nat) (h : i < s.length) :
    gw (s.set i v) i = v := by
  unfold gw
  rw [List.getD_eq_getElem?_getD, List.getElem?_set_self h]
  rfl

theorem gw_set_ne (s : List Nat) (v : Nat) {i j : Nat} (h : i ≠ j) :
    gw (s.set i v) j = gw s j := by
  unfold gw
  rw [List.getD_eq_getElem?_getD, List.getElem?_set_ne h, ← List.getD_eq_getElem?_getD]

theorem shuffle_length (s : List Nat) (a b c d : Nat) :
    (_helix2_shuffle s a b c d).length = s.length := by
  simp only [_helix2_shuffle, List.length_set]

theorem round_shuffles_length (w : List Nat) :
    (round_shuffles w).length = w.length := by
  simp only [round_shuffles, shuffle_length]

theorem seed_with_index_length (nonce st : List Nat) (idx : Nat) :
    (seed_with_index nonce st idx).length = st.length := by
  simp only [seed_with_index, List.length_set]

theorem add_words_length (w st : List Nat) :
    (add_words w st).length = min w.length st.length := by
  simp only [add_words, List.length_zipWith]

/-
  The spec-described mix applied at four distinct in-bounds positions agrees
  with the implementation's interleaved in-place shuffle.
-/

set_option maxHeartbeats 1000000 in
theorem mix_at_eq_shuffle (w : List Nat) (h : w.length = 16) (a b c d : Nat)
    (ha : a < 16) (hb : b < 16) (hc : c < 16) (hd : d < 16)
    (hab : a ≠ b) (hac : a ≠ c) (had : a ≠ d)
    (hbc : b ≠ c) (hbd : b ≠ d) (hcd : c ≠ d) :
    mix_at w a b c d = _helix2_shuffle w a b c d := by
  have hba := hab.symm
  have hca := hac.symm
  have hda := had.symm
  have hcb := hbc.symm
  have hdb := hbd.symm
  have hdc := hcd.symm
  simp only [mix_at, mix, _helix2_shuffle]
  simp only [gw_set_self, List.length_set, h, ha, hb, hc, hd,
    gw_set_ne _ _ hab, gw_set_ne _ _ hac, gw_set_ne _ _ had,
    gw_set_ne _ _ hbc, gw_set_ne _ _ hbd, gw_set_ne _ _ hcd,
    gw_set_ne _ _ hba, gw_set_ne _ _ hca, gw_set_ne _ _ hda,
    gw_set_ne _ _ hcb, gw_set_ne _ _ hdb, gw_set_ne _ _ hdc]
  apply List.ext_getElem?
  intro n
  by_cases hna : n = a
  · rw [hna]
    simp only [List.getElem?_set_ne hba, List.getElem?_set_ne hca, List.getElem?_set_ne hda,
      List.getElem?_set_self, List.length_set, h, ha]
  · by_cases hnb : n = b
    · rw [hnb]
      simp only [List.getElem?_set_ne hab, List.getElem?_set_ne hcb, List.getElem?_set_ne hdb,
        List.getElem?_set_self, List.length_set, h, hb]
    · by_cases hnc : n = c
      · rw [hnc]
        simp only [List.getElem?_set_ne hac, List.getElem?_set_ne hbc, List.getElem?_set_ne hdc,
          List.getElem?_set_self, List.length_set, h, hc]
      · by_cases hnd : n = d
        · rw [hnd]
          simp only [List.getElem?_set_ne had, List.getElem?_set_ne hbd, List.getElem?_set_ne hcd,
            List.getElem?_set_self, List.length_set, h, hd]
        · have h1 : a ≠ n := fun hh => hna hh.symm
          have h2 : b ≠ n := fun hh => hnb hh.symm
          have h3 : c ≠ n := fun hh => hnc hh.symm
          have h4 : d ≠ n := fun hh => hnd hh.symm
          simp only [List.getElem?_set_ne h1, List.getElem?_set_ne h2,
            List.getElem?_set_ne h3, List.getElem?_set_ne h4]

theorem mix_at_eq_shuffle' (w : List Nat) (h : w.length = 16) (a b c d : Nat)
    (hq : (a < 16 ∧ b < 16 ∧ c < 16 ∧ d < 16) ∧
      (a ≠ b ∧ a ≠ c ∧ a ≠ d) ∧ (b ≠ c ∧ b ≠ d) ∧ c ≠ d) :
    mix_at w a b c d = _helix2_shuffle w a b c d :=
  mix_at_eq_shuffle w h a b c d hq.1.1 hq.1.2.1 hq.1.2.2.1 hq.1.2.2.2
    hq.2.1.1 hq.2.1.2.1 hq.2.1.2.2 hq.2.2.1.1 hq.2.2.1.2 hq.2.2.2

theorem spec_round_pass_eq (w : List Nat) (h : w.length = 16) :
    spec_round_pass w = round_shuffles w := by
  have hl : ∀ (s : List Nat) a b c d, s.length = 16 →
      (_helix2_shuffle s a b c d).length = 16 := fun s a b c d hs => by
    rw [shuffle_length, hs]
  simp only [spec_round_pass, round_shuffles]
  rw [mix_at_eq_shuffle' w h 0 1 2 3 (by decide)]
  rw [mix_at_eq_shuffle' _ (hl _ _ _ _ _ h) 4 5 6 7 (by decide)]
  rw [mix_at_eq_shuffle' _ (hl _ _ _ _ _ (hl _ _ _ _ _ h)) 8 9 10 11 (by decide)]
  rw [mix_at_eq_shuffle' _ (hl _ _ _ _ _ (hl _ _ _ _ _ (hl _ _ _ _ _ h)))
    12 13 14 15 (by decide)]
  rw [mix_at_eq_shuffle' _ (hl _ _ _ _ _ (hl _ _ _ _ _ (hl _ _ _ _ _ (hl _ _ _ _ _ h))))
    0 4 8 12 (by decide)]
  rw [mix_at_eq_shuffle' _
    (hl _ _ _ _ _ (hl _ _ _ _ _ (hl _ _ _ _ _ (hl _ _ _ _ _ (hl _ _ _ _ _ h)))))
    1 5 9 13 (by decide)]
  rw [mix_at_eq_shuffle' _
    (hl _ _ _ _ _
      (hl _ _ _ _ _ (hl _ _ _ _ _ (hl _ _ _ _ _ (hl _ _ _ _ _ (hl _ _ _ _ _ h))))))
    2 6 10 14 (by decide)]
  rw [mix_at_eq_shuffle' _
    (hl _ _ _ _ _
      (hl _ _ _ _ _
        (hl _ _ _ _ _ (hl _ _ _ _ _ (hl _ _ _ _ _ (hl _ _ _ _ _ (hl _ _ _ _ _ h)))))))
    3 7 11 15 (by decide)]
  rw [mix_at_eq_shuffle' _
    (hl _ _ _ _ _
      (hl _ _ _ _ _
        (hl _ _ _ _ _
          (hl _ _ _ _ _
            (hl _ _ _ _ _ (hl _ _ _ _ _ (hl _ _ _ _ _ (hl _ _ _ _ _ h))))))))
    0 5 10 15 (by decide)]
  rw [mix_at_eq_shuffle' _
    (hl _ _ _ _ _
      (hl _ _ _ _ _
        (hl _ _ _ _ _
          (hl _ _ _ _ _
            (hl _ _ _ _ _
              (hl _ _ _ _ _ (hl _ _ _ _ _ (hl _ _ _ _ _ (hl _ _ _ _ _ h)))))))))
    1 6 11 12 (by decide)]
  rw [mix_at_eq_shuffle' _
    (hl _ _ _ _ _
      (hl _ _ _ _ _
        (hl _ _ _ _ _
          (hl _ _ _ _ _
            (hl _ _ _ _ _
              (hl _ _ _ _ _
                (hl _ _ _ _ _ (hl _ _ _ _ _ (hl _ _ _ _ _ (hl _ _ _ _ _ h))))))))))
    2 7 8 13 (by decide)]
  rw [mix_at_eq_shuffle' _
    (hl _ _ _ _ _
      (hl _ _ _ _ _
        (hl _ _ _ _ _
          (hl _ _ _ _ _
            (hl _ _ _ _ _
              (hl _ _ _ _ _
                (hl _ _ _ _ _
                  (hl _ _ _ _ _ (hl _ _ _ _ _ (hl _ _ _ _ _ (hl _ _ _ _ _ h)))))))))))
    3 4 9 14 (by decide)]

theorem block_core_structure (s : List Nat) :
    block_core s = add_words (round_shuffles (add_words (round_shuffles s) s)) s := rfl

theorem spec_block_core_eq (s : List Nat) (h : s.length = 16) :
    spec_block_core s = block_core s := by
  have h2 : (add_words (round_shuffles s) s).length = 16 := by
    rw [add_words_length, round_shuffles_length, h, Nat.min_self]
  rw [block_core_structure, spec_block_core, spec_round_pass_eq s h,
    spec_round_pass_eq _ h2]

/-
  Overwriting the block-index words is idempotent, so the keystream block of
  a state is insensitive to previously written index words.
-/

theorem seed_with_index_idem (nonce st : List Nat) (j i : Nat) :
    seed_with_index nonce (seed_with_index nonce st j) i = seed_with_index nonce st i := by
  apply List.ext_getElem?
  intro n
  by_cases h10 : n = 10
  · subst h10
    simp [seed_with_index, List.getElem?_set_self',
      List.getElem?_set_ne (show (11 : Nat) ≠ 10 by decide), Option.map_map]
  · by_cases h11 : n = 11
    · subst h11
      simp [seed_with_index, List.getElem?_set_self',
        List.getElem?_set_ne (show (10 : Nat) ≠ 11 by decide), Option.map_map]
    · have g10 : (10 : Nat) ≠ n := fun hh => h10 hh.symm
      have g11 : (11 : Nat) ≠ n := fun hh => h11 hh.symm
      simp [seed_with_index, List.getElem?_set_ne g10, List.getElem?_set_ne g11]

theorem block_words_seed (nonce st : List Nat) (j i : Nat) :
    block_words nonce (seed_with_index nonce st j) i = block_words nonce st i := by
  unfold block_words
  rw [seed_with_index_idem]

/-
  The cache-coherence invariant holds after every regeneration, hence after
  construction and after every public operation.
-/

theorem inv_initialize_keystream (ctx : helix2_context_t) :
    Inv (_helix2_initialize_keystream ctx) := by
  unfold Inv _helix2_initialize_keystream
  dsimp only
  exact ⟨rfl, (seed_with_index_idem ctx.nonce ctx.state _ _).symm,
    (block_words_seed ctx.nonce ctx.state _ _).symm⟩

theorem inv_set_next_block (ctx : helix2_context_t) (i : Nat) :
    Inv (helix2_buffer_set_next_block ctx i) :=
  inv_initialize_keystream _

theorem inv_init (key nonce : List Nat) :
    Inv (helix2_initialize_context key nonce) :=
  inv_set_next_block _ _

theorem set_next_block_nonce (ctx : helix2_context_t) (i : Nat) :
    (helix2_buffer_set_next_block ctx i).nonce = ctx.nonce := by
  unfold helix2_buffer_set_next_block _helix2_initialize_keystream
  dsimp only

theorem set_next_block_key (ctx : helix2_context_t) (i : Nat) :
    (helix2_buffer_set_next_block ctx i).key = ctx.key := by
  unfold helix2_buffer_set_next_block _helix2_initialize_keystream
  dsimp only

theorem set_next_block_state (ctx : helix2_context_t) (i : Nat) :
    (helix2_buffer_set_next_block ctx i).state =
      seed_with_index ctx.nonce ctx.state i := by
  unfold helix2_buffer_set_next_block _helix2_initialize_keystream
  dsimp only

theorem set_next_block_stream (ctx : helix2_context_t) (i : Nat) :
    (helix2_buffer_set_next_block ctx i).stream =
      block_words ctx.nonce ctx.state i := by
  unfold helix2_buffer_set_next_block _helix2_initialize_keystream
  dsimp only

theorem set_next_block_current (ctx : helix2_context_t) (i : Nat) :
    (helix2_buffer_set_next_block ctx i).current_block_index = i := by
  unfold helix2_buffer_set_next_block _helix2_initialize_keystream
  dsimp only

theorem set_next_block_last (ctx : helix2_context_t) (i : Nat) :
    (helix2_buffer_set_next_block ctx i).last_block_index = i := by
  unfold helix2_buffer_set_next_block _helix2_initialize_keystream
  dsimp only

theorem set_next_block_words (ctx : helix2_context_t) (i j : Nat) :
    block_words (helix2_buffer_set_next_block ctx i).nonce
      (helix2_buffer_set_next_block ctx i).state j =
      block_words ctx.nonce ctx.state j := by
  rw [set_next_block_nonce, set_next_block_state, block_words_seed]

/- On a coherent context, regenerating at the already-cached index rebuilds
   the identical context. -/
theorem set_next_block_noop (ctx : helix2_context_t) (i : Nat) (h : Inv ctx)
    (hi : ctx.last_block_index = i) :
    helix2_buffer_set_next_block ctx i = ctx := by
  obtain ⟨h1, h2, h3⟩ := h
  have hcur : ctx.current_block_index = i := h1.symm.trans hi
  unfold helix2_buffer_set_next_block _helix2_initialize_keystream
  cases ctx with
  | mk nonce key stream state cur last =>
    dsimp only at h1 h2 h3 hcur hi ⊢
    subst hcur
    rw [← h2, ← h3, hi]

/-
  Characterisation of helix2_byte on coherent contexts.
-/

theorem helix2_byte_fst_inv (ctx : helix2_context_t) (off b : Nat) (h : Inv ctx) :
    Inv (helix2_byte ctx off b).1 := by
  unfold helix2_byte
  dsimp only
  by_cases hc : ctx.last_block_index ≠ off / 64
  · rw [if_pos hc]
    exact inv_set_next_block _ _
  · rw [if_neg hc]
    push_neg at hc
    have hcur : ctx.current_block_index = off / 64 := h.1.symm.trans hc
    exact ⟨hc, by rw [← hcur]; exact h.2.1, by rw [← hcur]; exact h.2.2⟩

theorem helix2_byte_snd (ctx : helix2_context_t) (off b : Nat) (h : Inv ctx) :
    (helix2_byte ctx off b).2 =
      b ^^^ stream_byte (block_words ctx.nonce ctx.state (off / 64)) (off % 64) := by
  unfold helix2_byte
  dsimp only
  by_cases hc : ctx.last_block_index ≠ off / 64
  · rw [if_pos hc, set_next_block_stream]
  · rw [if_neg hc]
    push_neg at hc
    have hcur : ctx.current_block_index = off / 64 := h.1.symm.trans hc
    rw [h.2.2, hcur]

theorem helix2_byte_fst_nonce (ctx : helix2_context_t) (off b : Nat) :
    (helix2_byte ctx off b).1.nonce = ctx.nonce := by
  unfold helix2_byte
  dsimp only
  split
  · rw [set_next_block_nonce]
  · rfl

theorem helix2_byte_fst_words (ctx : helix2_context_t) (off b i : Nat) :
    block_words (helix2_byte ctx off b).1.nonce (helix2_byte ctx off b).1.state i =
      block_words ctx.nonce ctx.state i := by
  unfold helix2_byte
  dsimp only
  split
  · rw [set_next_block_nonce, set_next_block_state]
    exact block_words_seed _ _ _ _
  · rfl

/-
  Characterisation of the buffer loop on coherent contexts.
-/

theorem buffer_loop_fst_nonce (buf : List Nat) :
    ∀ (ctx : helix2_context_t) (cb bo : Nat),
    (helix2_buffer_loop ctx buf cb bo).1.nonce = ctx.nonce := by
  induction buf with
  | nil => intro ctx cb bo; rfl
  | cons b rest ih =>
    intro ctx cb bo
    unfold helix2_buffer_loop
    dsimp only
    split
    · rw [ih, set_next_block_nonce]
    · exact ih ctx cb (bo + 1)

theorem buffer_loop_fst_words (buf : List Nat) :
    ∀ (ctx : helix2_context_t) (cb bo i : Nat),
    block_words (helix2_buffer_loop ctx buf cb bo).1.nonce
      (helix2_buffer_loop ctx buf cb bo).1.state i =
      block_words ctx.nonce ctx.state i := by
  induction buf with
  | nil => intro ctx cb bo i; rfl
  | cons b rest ih =>
    intro ctx cb bo i
    unfold helix2_buffer_loop
    dsimp only
    split
    · rw [ih, set_next_block_words]
    · exact ih ctx cb (bo + 1) i

theorem buffer_loop_fst_inv (buf : List Nat) :
    ∀ (ctx : helix2_context_t) (cb bo : Nat), Inv ctx →
    Inv (helix2_buffer_loop ctx buf cb bo).1 := by
  induction buf with
  | nil => intro ctx cb bo h; exact h
  | cons b rest ih =>
    intro ctx cb bo h
    unfold helix2_buffer_loop
    dsimp only
    split
    · exact ih _ _ _ (inv_set_next_block _ _)
    · exact ih ctx cb (bo + 1) h

theorem pure_stream_congr (n1 s1 n2 s2 : List Nat)
    (h : ∀ i, block_words n1 s1 i = block_words n2 s2 i) :
    ∀ (buf : List Nat) (cb bo : Nat),
    pure_stream n1 s1 cb bo buf = pure_stream n2 s2 cb bo buf := by
  intro buf
  induction buf with
  | nil => intro cb bo; rfl
  | cons b rest ih =>
    intro cb bo
    unfold pure_stream
    by_cases hge : bo ≥ 64
    · rw [if_pos hge, if_pos hge, h, ih]
    · rw [if_neg hge, if_neg hge, h, ih]

theorem buffer_loop_snd (buf : List Nat) :
    ∀ (ctx : helix2_context_t) (cb bo : Nat), Inv ctx →
    ctx.current_block_index = cb →
    (helix2_buffer_loop ctx buf cb bo).2 =
      pure_stream ctx.nonce ctx.state cb bo buf := by
  induction buf with
  | nil => intro ctx cb bo _ _; rfl
  | cons b rest ih =>
    intro ctx cb bo h hcur
    unfold helix2_buffer_loop pure_stream
    dsimp only
    by_cases hge : bo ≥ 64
    · rw [if_pos hge, if_pos hge, set_next_block_stream]
      rw [ih _ _ _ (inv_set_next_block _ _) (set_next_block_current _ _)]
      rw [pure_stream_congr _ _ _ _ (set_next_block_words ctx _)]
    · rw [if_neg hge, if_neg hge]
      rw [h.2.2, hcur]
      rw [ih ctx cb (bo + 1) h hcur]

/-
  Characterisation of helix2_buffer on coherent contexts.
-/

theorem helix2_buffer_fst_nonce (ctx : helix2_context_t) (buf : List Nat)
    (start : Nat) :
    (helix2_buffer ctx buf start).1.nonce = ctx.nonce := by
  unfold helix2_buffer
  dsimp only
  split
  · rw [buffer_loop_fst_nonce, set_next_block_nonce]
  · rw [buffer_loop_fst_nonce]

theorem helix2_buffer_fst_words (ctx : helix2_context_t) (buf : List Nat)
    (start i : Nat) :
    block_words (helix2_buffer ctx buf start).1.nonce
      (helix2_buffer ctx buf start).1.state i =
      block_words ctx.nonce ctx.state i := by
  unfold helix2_buffer
  dsimp only
  split
  · rw [buffer_loop_fst_words, set_next_block_words]
  · rw [buffer_loop_fst_words]

theorem helix2_buffer_fst_inv (ctx : helix2_context_t) (buf : List Nat)
    (start : Nat) (h : Inv ctx) :
    Inv (helix2_buffer ctx buf start).1 := by
  unfold helix2_buffer
  dsimp only
  split
  · exact buffer_loop_fst_inv _ _ _ _ (inv_set_next_block _ _)
  · exact buffer_loop_fst_inv _ _ _ _ h

theorem helix2_buffer_snd (ctx : helix2_context_t) (buf : List Nat)
    (start : Nat) (h : Inv ctx) :
    (helix2_buffer ctx buf start).2 =
      pure_stream ctx.nonce ctx.state (start / 64) (start % 64) buf := by
  unfold helix2_buffer
  dsimp only
  by_cases hc : ctx.last_block_index ≠ start / 64
  · rw [if_pos hc]
    rw [buffer_loop_snd _ _ _ _ (inv_set_next_block _ _) (set_next_block_current _ _)]
    rw [pure_stream_congr _ _ _ _ (set_next_block_words ctx _)]
  · rw [if_neg hc]
    push_neg at hc
    exact buffer_loop_snd _ _ _ _ h (h.1.symm.trans hc)

/-
  Characterisation of sequential single-byte ciphering.
-/

theorem pure_seq_congr (n1 s1 n2 s2 : List Nat)
    (h : ∀ i, block_words n1 s1 i = block_words n2 s2 i) :
    ∀ (buf : List Nat) (start : Nat),
    pure_seq n1 s1 start buf = pure_seq n2 s2 start buf := by
  intro buf
  induction buf with
  | nil => intro start; rfl
  | cons b rest ih =>
    intro start
    unfold pure_seq
    rw [h, ih]

theorem seq_cipher_snd (buf : List Nat) :
    ∀ (ctx : helix2_context_t) (start : Nat), Inv ctx →
    (seq_cipher ctx start buf).2 = pure_seq ctx.nonce ctx.state start buf := by
  induction buf with
  | nil => intro ctx start _; rfl
  | cons b rest ih =>
    intro ctx start h
    unfold seq_cipher pure_seq
    dsimp only
    rw [helix2_byte_snd _ _ _ h]
    rw [ih _ (start + 1) (helix2_byte_fst_inv _ _ _ h)]
    rw [pure_seq_congr _ _ _ _ (fun i => helix2_byte_fst_words ctx (start % 2 ^ 64) b i)]

/-
  Arithmetic bridge: the loop's (block counter, in-block offset) bookkeeping
  coincides with per-offset division as long as the range does not wrap past
  offset 2^64.
-/

theorem pure_stream_bo64 (nonce st : List Nat) (buf : List Nat) (cb : Nat) :
    pure_stream nonce st cb 64 buf = pure_stream nonce st ((cb + 1) % 2 ^ 64) 0 buf := by
  cases buf with
  | nil => rfl
  | cons b rest =>
    unfold pure_stream
    rw [if_pos (by decide : (64 : Nat) ≥ 64), if_neg (by decide : ¬(0 : Nat) ≥ 64)]

theorem pure_stream_eq_pure_seq (nonce st : List Nat) :
    ∀ (buf : List Nat) (start : Nat), start + buf.length ≤ 2 ^ 64 →
    pure_stream nonce st (start / 64) (start % 64) buf = pure_seq nonce st start buf := by
  intro buf
  induction buf with
  | nil => intro start _; rfl
  | cons b rest ih =>
    intro start h
    rw [List.length_cons] at h
    have hs : start < 2 ^ 64 := by omega
    have hmod : start % 2 ^ 64 = start := Nat.mod_eq_of_lt hs
    unfold pure_stream pure_seq
    rw [if_neg (show ¬start % 64 ≥ 64 by omega)]
    rw [hmod]
    have h' : start + 1 + rest.length ≤ 2 ^ 64 := by omega
    by_cases hlt : start % 64 + 1 < 64
    · have d1 : (start + 1) / 64 = start / 64 := by omega
      have d2 : (start + 1) % 64 = start % 64 + 1 := by omega
      have := ih (start + 1) h'
      rw [d1, d2] at this
      rw [this]
    · have heq : start % 64 + 1 = 64 := by omega
      rw [heq, pure_stream_bo64]
      have d1 : (start + 1) / 64 = start / 64 + 1 := by omega
      have d2 : (start + 1) % 64 = 0 := by omega
      have d3 : (start / 64 + 1) % 2 ^ 64 = start / 64 + 1 := by omega
      have := ih (start + 1) h'
      rw [d1, d2] at this
      rw [d3, this]

/-
  Preservation along arbitrary call histories.
-/

theorem apply_op_inv (ctx : helix2_context_t) (op : Helix2Op) (h : Inv ctx) :
    Inv (apply_op ctx op) := by
  cases op with
  | byteOp off b => exact helix2_byte_fst_inv _ _ _ h
  | bufferOp buf s => exact helix2_buffer_fst_inv _ _ _ h
  | setBlockOp i => exact inv_set_next_block _ _
  | nextBlockOp => exact inv_set_next_block _ _

theorem apply_op_words (ctx : helix2_context_t) (op : Helix2Op) (i : Nat) :
    block_words (apply_op ctx op).nonce (apply_op ctx op).state i =
      block_words ctx.nonce ctx.state i := by
  cases op with
  | byteOp off b => exact helix2_byte_fst_words _ _ _ _
  | bufferOp buf s => exact helix2_buffer_fst_words _ _ _ _
  | setBlockOp j => exact set_next_block_words _ _ _
  | nextBlockOp => exact set_next_block_words _ _ _

theorem apply_ops_inv (ops : List Helix2Op) :
    ∀ ctx, Inv ctx → Inv (apply_ops ctx ops) := by
  induction ops with
  | nil => intro ctx h; exact h
  | cons op rest ih => intro ctx h; exact ih _ (apply_op_inv _ _ h)

theorem apply_ops_words (ops : List Helix2Op) :
    ∀ (ctx : helix2_context_t) (i : Nat),
    block_words (apply_ops ctx ops).nonce (apply_ops ctx ops).state i =
      block_words ctx.nonce ctx.state i := by
  induction ops with
  | nil => intro ctx i; rfl
  | cons op rest ih =>
    intro ctx i
    rw [show apply_ops ctx (op :: rest) = apply_ops (apply_op ctx op) rest from rfl,
      ih, apply_op_words]

/-
  Safety helpers: bounds of the rotate and of the serialized byte accesses.
-/

theorem rotl32_lt (x n : Nat) (hx : x < 2 ^ 32) : rotl32 x n < 2 ^ 32 := by
  unfold rotl32
  apply Nat.or_lt_two_pow
  · exact Nat.mod_lt _ (by norm_num)
  · calc x >>> (32 - n) = x / 2 ^ (32 - n) := Nat.shiftRight_eq_div_pow x (32 - n)
      _ ≤ x := Nat.div_le_self x _
      _ < 2 ^ 32 := hx

theorem le_bytes_getD (ws : List Nat) (i : Nat) (h : i < 64) :
    (le_bytes ws).getD i 0 = stream_byte ws i := by
  unfold le_bytes
  rw [List.getD_eq_getElem?_getD, List.getElem?_map, List.getElem?_range h]
  rfl

theorem seed_words (nonce st : List Nat) (idx : Nat) (h : st.length = 16) :
    (seed_with_index nonce st idx).getD 10 0 = idx % 2 ^ 32 ∧
    (seed_with_index nonce st idx).getD 11 0 =
      pack4 nonce 0 ^^^ ((idx >>> 32) % 2 ^ 32) := by
  constructor
  · unfold seed_with_index
    rw [List.getD_eq_getElem?_getD,
      List.getElem?_set_ne (show (11 : Nat) ≠ 10 by decide),
      List.getElem?_set_self (show 10 < st.length by rw [h]; decide)]
    rfl
  · unfold seed_with_index
    rw [List.getD_eq_getElem?_getD,
      List.getElem?_set_self (show 11 < (st.set 10 (idx % 2 ^ 32)).length by
        rw [List.length_set, h]; decide)]
    rfl

theorem high_word_lt (idx : Nat) (h : idx < 2 ^ 64) :
    (idx >>> 32) % 2 ^ 32 = idx >>> 32 := by
  apply Nat.mod_eq_of_lt
  rw [Nat.shiftRight_eq_div_pow]
  omega

/-
  The claims.
-/

/-- Claim C1: with key = 32 zero bytes and nonce = 20 zero bytes, the first 4
bytes of keystream block 0 produced after initialization are 14 84 EC FD; with
the same nonce and a key whose last byte alone is 01, they are EF 71 CB C9. -/
theorem C1_known_answer_vectors :
    (le_bytes (helix2_initialize_context zero_key zero_nonce).stream).take 4 =
      [0x14, 0x84, 0xEC, 0xFD] ∧
    (le_bytes (helix2_initialize_context last_byte_one_key zero_nonce).stream).take 4 =
      [0xEF, 0x71, 0xCB, 0xC9] := by
  decide

/-- Claim C2: for every key, nonce, offset and byte, applying helix2_byte twice
at the same offset with contexts freshly built from the same key and nonce
returns the original byte. -/
theorem C2_involution (key nonce : List Nat) (off b : Nat) :
    (helix2_byte (helix2_initialize_context key nonce) off
      (helix2_byte (helix2_initialize_context key nonce) off b).2).2 = b := by
  have h := inv_init key nonce
  rw [helix2_byte_snd _ _ _ h, helix2_byte_snd _ _ _ h]
  rw [Nat.xor_assoc, Nat.xor_self, Nat.xor_zero]

/-- Claim C3 counterexample: a buffer of two bytes starting at offset 2^64 - 1
is transformed differently by helix2_buffer and by two sequential helix2_byte
calls, because the buffer's block counter wraps at 2^64 while byte offsets wrap
at 2^64 and hence block indices at 2^58. -/
theorem C3_counterexample :
    (helix2_buffer (helix2_initialize_context zero_key zero_nonce) [0, 0]
        (2 ^ 64 - 1)).2 ≠
      (seq_cipher (helix2_initialize_context zero_key zero_nonce) (2 ^ 64 - 1)
        [0, 0]).2 := by
  decide

/-- Claim C3 (amended): on a cache-coherent context, helix2_buffer produces the
same bytes as sequential helix2_byte calls at consecutive offsets, including
across 64-byte block boundaries, provided the range does not run past absolute
offset 2^64 (where the two paths wrap differently). -/
theorem C3_range_byte_equivalence (ctx : helix2_context_t) (buf : List Nat)
    (start : Nat) (h : Inv ctx) (hrange : start + buf.length ≤ 2 ^ 64) :
    (helix2_buffer ctx buf start).2 = (seq_cipher ctx start buf).2 := by
  rw [helix2_buffer_snd _ _ _ h, seq_cipher_snd _ _ _ h,
    pure_stream_eq_pure_seq _ _ _ _ hrange]

/-- Witness for C3: a 100-byte range starting at offset 30, straddling block
boundaries, on a freshly initialized context. -/
theorem C3_range_byte_equivalence_witness :
    Inv (helix2_initialize_context zero_key zero_nonce) ∧
    30 + (List.replicate 100 0 : List Nat).length ≤ 2 ^ 64 ∧
    (helix2_buffer (helix2_initialize_context zero_key zero_nonce)
        (List.replicate 100 0) 30).2 =
      (seq_cipher (helix2_initialize_context zero_key zero_nonce) 30
        (List.replicate 100 0)).2 :=
  ⟨by decide, by decide, C3_range_byte_equivalence _ _ _ (by decide) (by decide)⟩

/-- Claim C4 counterexample: on the all-zero key and nonce, the unnamed source
file's helix2_buffer (which regenerates unconditionally but uses the older
row/diagonal then column/mirrored-diagonal rounds) transforms a one-byte buffer
differently from src/src/helix2.c's helix2_buffer. -/
theorem C4_counterexample :
    (helix2_buffer_v1 (helix2_initialize_context_v1 zero_key zero_nonce) [0] 0).2 ≠
      (helix2_buffer (helix2_initialize_context zero_key zero_nonce) [0] 0).2 := by
  decide

/-- Claim C4 (amended): on a cache-coherent context, the caching helix2_buffer
is byte-identical to the non-caching derivation that unconditionally
regenerates per call using the canonical keystream generation. -/
theorem C4_cache_nocache_equivalence (ctx : helix2_context_t) (buf : List Nat)
    (start : Nat) (h : Inv ctx) :
    (helix2_buffer ctx buf start).2 = (helix2_buffer_nocache ctx buf start).2 := by
  unfold helix2_buffer helix2_buffer_nocache
  dsimp only
  by_cases hc : ctx.last_block_index ≠ start / 64
  · rw [if_pos hc]
  · rw [if_neg hc]
    push_neg at hc
    rw [set_next_block_noop ctx (start / 64) h hc]

/-- Witness for C4: a 70-byte range starting at offset 60 on a freshly
initialized context. -/
theorem C4_cache_nocache_equivalence_witness :
    Inv (helix2_initialize_context zero_key zero_nonce) ∧
    (helix2_buffer (helix2_initialize_context zero_key zero_nonce)
        (List.replicate 70 0) 60).2 =
      (helix2_buffer_nocache (helix2_initialize_context zero_key zero_nonce)
        (List.replicate 70 0) 60).2 :=
  ⟨by decide, C4_cache_nocache_equivalence _ _ _ (by decide)⟩

/-- Claim C5: the byte produced by helix2_byte at an offset depends only on the
key, nonce, offset and input byte — two contexts initialized identically return
the same output at that offset regardless of the call histories performed on
each. -/
theorem C5_random_access_independence (key nonce : List Nat)
    (ops1 ops2 : List Helix2Op) (off b : Nat) :
    (helix2_byte (apply_ops (helix2_initialize_context key nonce) ops1) off b).2 =
      (helix2_byte (apply_ops (helix2_initialize_context key nonce) ops2) off b).2 := by
  have hgen : ∀ ops : List Helix2Op,
      (helix2_byte (apply_ops (helix2_initialize_context key nonce) ops) off b).2 =
        b ^^^ stream_byte
          (block_words (helix2_initialize_context key nonce).nonce
            (helix2_initialize_context key nonce).state (off / 64)) (off % 64) := by
    intro ops
    rw [helix2_byte_snd _ _ _ (apply_ops_inv ops _ (inv_init key nonce))]
    rw [apply_ops_words]
  rw [hgen ops1, hgen ops2]

/-- Claim C6: whenever a block is generated, state word 10 is the low 32 bits
of the block index and word 11 is the packed first 4 nonce bytes XOR the high
32 bits; concretely with zero key and nonce, block 0 gives word 10 = 0 and
word 11 = 0, block 0xFFFFFFFF gives word 10 = 0xFFFFFFFF with zero high
contribution, and block 0x100000000 gives word 10 = 0 with the low bit of the
nonce-derived word flipped relative to block 0. -/
theorem C6_block_index_words :
    (∀ (ctx : helix2_context_t) (idx : Nat), ctx.state.length = 16 → idx < 2 ^ 64 →
      (helix2_buffer_set_next_block ctx idx).state.getD 10 0 = idx % 2 ^ 32 ∧
      (helix2_buffer_set_next_block ctx idx).state.getD 11 0 =
        pack4 ctx.nonce 0 ^^^ idx >>> 32) ∧
    ((helix2_buffer_set_next_block (helix2_initialize_context zero_key zero_nonce)
        0).state.getD 10 0 = 0 ∧
      (helix2_buffer_set_next_block (helix2_initialize_context zero_key zero_nonce)
        0).state.getD 11 0 = 0) ∧
    ((helix2_buffer_set_next_block (helix2_initialize_context zero_key zero_nonce)
        0xFFFFFFFF).state.getD 10 0 = 0xFFFFFFFF ∧
      (helix2_buffer_set_next_block (helix2_initialize_context zero_key zero_nonce)
        0xFFFFFFFF).state.getD 11 0 = 0) ∧
    ((helix2_buffer_set_next_block (helix2_initialize_context zero_key zero_nonce)
        0x100000000).state.getD 10 0 = 0 ∧
      (helix2_buffer_set_next_block (helix2_initialize_context zero_key zero_nonce)
        0x100000000).state.getD 11 0 =
        (helix2_buffer_set_next_block (helix2_initialize_context zero_key zero_nonce)
          0).state.getD 11 0 ^^^ 1) := by
  refine ⟨?_, by decide, by decide, by decide⟩
  intro ctx idx h hlt
  rw [set_next_block_state]
  have hs := seed_words ctx.nonce ctx.state idx h
  rw [high_word_lt idx hlt] at hs
  exact hs

/-- Witness for C6: the general block-index-word property instantiated at a
concrete context and the index 2^32. -/
theorem C6_block_index_words_witness :
    stale_ctx.state.length = 16 ∧ (2 ^ 32 : Nat) < 2 ^ 64 ∧
    ((helix2_buffer_set_next_block stale_ctx (2 ^ 32)).state.getD 10 0 =
        2 ^ 32 % 2 ^ 32 ∧
      (helix2_buffer_set_next_block stale_ctx (2 ^ 32)).state.getD 11 0 =
        pack4 stale_ctx.nonce 0 ^^^ 2 ^ 32 >>> 32) :=
  ⟨by decide, by decide, C6_block_index_words.1 stale_ctx (2 ^ 32) (by decide) (by decide)⟩

/-- Claim C7: generate_block seeds words 10/11 from the block index, applies
the spec's eight-step ARX mix to the row, column and diagonal groups, adds the
per-block state word-wise, repeats the identical row/column/diagonal sequence,
adds the state again, and serializes the 16 words low-order-byte-first — this
spec-shaped computation coincides with the implementation's keystream block. -/
theorem C7_generate_block_algorithm (nonce st : List Nat) (idx : Nat)
    (h : st.length = 16) :
    spec_generate_block nonce st idx = le_bytes (block_words nonce st idx) := by
  unfold spec_generate_block block_words
  rw [spec_block_core_eq _ (by rw [seed_with_index_length, h])]

/-- Witness for C7: the algorithm equivalence at a concrete 16-word state. -/
theorem C7_generate_block_algorithm_witness :
    (List.replicate 16 0 : List Nat).length = 16 ∧
    spec_generate_block zero_nonce (List.replicate 16 0) 5 =
      le_bytes (block_words zero_nonce (List.replicate 16 0) 5) :=
  ⟨by decide, C7_generate_block_algorithm _ _ _ (by decide)⟩

/-- Claim C8 counterexample: a context whose last-generated index is 0 but
whose cached stream is not keystream block 0 is changed by
helix2_buffer_set_next_block at index 0 — the function regenerates
unconditionally, so it is not a no-op on every context. -/
theorem C8_counterexample :
    stale_ctx.last_block_index = 0 ∧
      helix2_buffer_set_next_block stale_ctx 0 ≠ stale_ctx := by
  exact ⟨rfl, by decide⟩

/-- Claim C8 (amended): on every cache-coherent context, set_block at the
last-generated index leaves the context unchanged (it regenerates the identical
block); and on every context, set_block stores the keystream block of the
requested index and sets both index fields to it. -/
theorem C8_set_block_contract :
    (∀ (ctx : helix2_context_t) (idx : Nat), Inv ctx →
      ctx.last_block_index = idx → helix2_buffer_set_next_block ctx idx = ctx) ∧
    (∀ (ctx : helix2_context_t) (idx : Nat),
      (helix2_buffer_set_next_block ctx idx).stream =
        block_words ctx.nonce ctx.state idx ∧
      (helix2_buffer_set_next_block ctx idx).last_block_index = idx ∧
      (helix2_buffer_set_next_block ctx idx).current_block_index = idx) :=
  ⟨fun ctx idx h hi => set_next_block_noop ctx idx h hi,
   fun ctx idx =>
    ⟨set_next_block_stream ctx idx, set_next_block_last ctx idx,
      set_next_block_current ctx idx⟩⟩

/-- Witness for C8: set_block at the cached index 0 of a freshly initialized
context leaves it unchanged. -/
theorem C8_set_block_contract_witness :
    Inv (helix2_initialize_context zero_key zero_nonce) ∧
    (helix2_initialize_context zero_key zero_nonce).last_block_index = 0 ∧
    helix2_buffer_set_next_block (helix2_initialize_context zero_key zero_nonce) 0 =
      helix2_initialize_context zero_key zero_nonce :=
  ⟨by decide, by decide, C8_set_block_contract.1 _ 0 (by decide) (by decide)⟩

/-- Claim C9: the cache-coherence invariant — index fields agree and the cached
stream is the keystream block of the current index — holds after initialization
and is preserved by every public operation. -/
theorem C9_cache_coherence :
    (∀ key nonce : List Nat, Inv (helix2_initialize_context key nonce)) ∧
    (∀ (ctx : helix2_context_t) (op : Helix2Op), Inv ctx → Inv (apply_op ctx op)) :=
  ⟨fun key nonce => inv_init key nonce, fun ctx op h => apply_op_inv ctx op h⟩

/-- Witness for C9: the invariant holds after initialization followed by a
byte operation. -/
theorem C9_cache_coherence_witness :
    Inv (apply_op (helix2_initialize_context zero_key zero_nonce)
      (Helix2Op.byteOp 100 7)) :=
  C9_cache_coherence.2 _ _ (C9_cache_coherence.1 zero_key zero_nonce)

/-- Claim C10: the core's rotations all use amounts strictly between 0 and 32,
so the modelled rotate stays within 32 bits; every keystream byte access uses
the intra-block offset reduced modulo 64 into the 64-byte serialization, which
is always in bounds; and the shuffle preserves the state's length. -/
theorem C10_totality_bounds :
    (∀ n ∈ rotation_amounts, 0 < n ∧ n < 32) ∧
    (∀ x n : Nat, x < 2 ^ 32 → n ∈ rotation_amounts → rotl32 x n < 2 ^ 32) ∧
    (∀ ws : List Nat, (le_bytes ws).length = 64) ∧
    (∀ (ctx : helix2_context_t) (off b : Nat), off % 64 < 64 ∧
      (helix2_byte ctx off b).2 =
        b ^^^ (le_bytes (helix2_byte ctx off b).1.stream).getD (off % 64) 0) ∧
    (∀ (s : List Nat) (a b c d : Nat), (_helix2_shuffle s a b c d).length = s.length) := by
  refine ⟨by decide, fun x n hx _ => rotl32_lt x n hx, ?_, ?_, shuffle_length⟩
  · intro ws
    unfold le_bytes
    rw [List.length_map, List.length_range]
  · intro ctx off b
    refine ⟨Nat.mod_lt _ (by norm_num), ?_⟩
    rw [le_bytes_getD _ _ (Nat.mod_lt _ (by norm_num))]
    rfl

/-- Witness for C10: the bound conjuncts instantiated at rotation amount 9 and
the word 5. -/
theorem C10_totality_bounds_witness :
    ((9 : Nat) ∈ rotation_amounts ∧ 0 < 9 ∧ 9 < 32) ∧
    ((5 : Nat) < 2 ^ 32 ∧ (9 : Nat) ∈ rotation_amounts ∧ rotl32 5 9 < 2 ^ 32) :=
  ⟨⟨by decide, C10_totality_bounds.1 9 (by decide)⟩,
   ⟨by decide, by decide, C10_totality_bounds.2.1 5 9 (by decide) (by decide)⟩⟩

end Helix2
